import Mathlib

/-!
# Verification of the bytecode-intelligence core of `evm-bytecode-decompiler`

Shallow embedding, in Lean 4, of the core modules of the repository:

* `src/modules/evm-opcodes.ts` — the `EVM` bytecode parser (`getOpcodes`);
* `src/modules/proxy-implementation.ts` — EIP-1967 proxy resolution
  (`detectProxyImplementation`, `slotToAddress`);
* `src/modules/try-decode-resp.ts` — heuristic response decoding (`decodeResp`);
* `src/groupcall/groupcall-viem.ts` — parallel invocation (`groupcall`) and
  revert-reason normalization (`normalizeRevertReason`);
* `src/helpers/contract-utils.ts` — `isCallableSignature`, `extractFunctionName`;
* the signature-resolution loop of `processUserContract` (bot orchestration)
  calling `openchain` / `fourByte` from `src/helpers/signature-resolver.ts`.

Bytes are modelled as `Nat` (each < 256 in practice), byte buffers as
`List Nat`, hex data as Lean `String`s, and the external world (RPC client,
lookup services, the `viem` ABI decoders) as explicit oracle structures, so
stateful or effectful TypeScript becomes explicit state passing.
-/

/-- An EVM opcode record, the `EvmOpcode` interface of
`src/modules/evm-opcodes.ts`: name, opcode byte, program counter, and the
optional immediate (`pushData`) of a PUSH instruction. -/
structure EvmOpcode where
  name : String
  opcode : Nat
  pc : Nat
  pushData : Option (List Nat)
deriving DecidableEq, Repr

/-- One hex digit, uppercase, as produced by JavaScript
`toString(16).toUpperCase()` for a single digit value. -/
def hexDigitU (n : Nat) : Char :=
  if n < 10 then Char.ofNat (48 + n) else Char.ofNat (55 + n)

/-- `n.toString(16).toUpperCase()` for a natural number (digit list). -/
def natToHexU (n : Nat) : List Char :=
  if _h : n < 16 then [hexDigitU n]
  else natToHexU (n / 16) ++ [hexDigitU (n % 16)]
termination_by n
decreasing_by
  exact Nat.div_lt_self (by omega) (by omega)

/-- JavaScript `parseInt(s, 10)` restricted to all-digit strings: `none`
on the empty string (`parseInt('')` is `NaN`) or on any non-digit
character. The only strings it is applied to are the digit suffixes of
the `PUSH1`–`PUSH32` opcode names. -/
def decDigits? (l : List Char) : Option Nat :=
  if l = [] then none
  else
    l.foldl
      (fun acc c =>
        match acc with
        | none => none
        | some n => if c.isDigit then some (n * 10 + (c.toNat - 48)) else none)
      (some 0)

/-- `padStart(2, '0')` applied to a digit list. -/
def padStart2 (l : List Char) : List Char :=
  List.replicate (2 - l.length) '0' ++ l

/-- The opcode-name table of `EVM.getOpcodeInfo`
(`src/modules/evm-opcodes.ts`): PUSH1–PUSH32 (0x60–0x7F), a handful of
named instructions, and the default hex rendering
`'0x' + opcode.toString(16).toUpperCase().padStart(2, '0')`. -/
def opcodeName (b : Nat) : String :=
  match b with
  | 0x60 => "PUSH1" | 0x61 => "PUSH2" | 0x62 => "PUSH3" | 0x63 => "PUSH4"
  | 0x64 => "PUSH5" | 0x65 => "PUSH6" | 0x66 => "PUSH7" | 0x67 => "PUSH8"
  | 0x68 => "PUSH9" | 0x69 => "PUSH10" | 0x6A => "PUSH11" | 0x6B => "PUSH12"
  | 0x6C => "PUSH13" | 0x6D => "PUSH14" | 0x6E => "PUSH15" | 0x6F => "PUSH16"
  | 0x70 => "PUSH17" | 0x71 => "PUSH18" | 0x72 => "PUSH19" | 0x73 => "PUSH20"
  | 0x74 => "PUSH21" | 0x75 => "PUSH22" | 0x76 => "PUSH23" | 0x77 => "PUSH24"
  | 0x78 => "PUSH25" | 0x79 => "PUSH26" | 0x7A => "PUSH27" | 0x7B => "PUSH28"
  | 0x7C => "PUSH29" | 0x7D => "PUSH30" | 0x7E => "PUSH31" | 0x7F => "PUSH32"
  | 0x00 => "STOP" | 0x01 => "ADD" | 0x02 => "MUL" | 0x03 => "SUB"
  | 0x50 => "POP" | 0x51 => "MLOAD" | 0x52 => "MSTORE" | 0x53 => "MSTORE8"
  | 0x54 => "SLOAD" | 0x55 => "SSTORE" | 0x56 => "JUMP" | 0x57 => "JUMPI"
  | 0x58 => "PC" | 0x59 => "MSIZE" | 0x5A => "GAS" | 0x5B => "JUMPDEST"
  | 0xF0 => "CREATE" | 0xF1 => "CALL" | 0xF2 => "CALLCODE" | 0xF3 => "RETURN"
  | 0xF4 => "DELEGATECALL" | 0xFA => "STATICCALL" | 0xFD => "REVERT"
  | 0xFF => "SELFDESTRUCT"
  | _ => "0x" ++ String.mk (padStart2 (natToHexU b))

/-- `parseInt(name.replace('PUSH', ''), 10)` guarded by
`name.startsWith('PUSH')`, the push-size computation of `EVM.getOpcodes`.
`none` both for non-PUSH names and for an unparsable suffix. -/
def pushSizeOfName (name : String) : Option Nat :=
  if "PUSH".data.isPrefixOf name.data then decDigits? (name.data.drop 4)
  else none

/-- The scanning loop of `EVM.getOpcodes` (`src/modules/evm-opcodes.ts`,
lines 46–66), started at program counter `pc`: decode the byte at `pc`;
for a PUSH instruction whose `pushSize` bytes of immediate lie entirely
inside the buffer (`pc + pushSize < code.length`), attach the immediate
`code.slice(pc + 1, pc + pushSize + 1)` and continue after it
(`pc += pushSize` plus the loop increment); otherwise attach no immediate
and continue at the next byte. -/
def getOpcodesAux (code : List Nat) (pc : Nat) : List EvmOpcode :=
  if h : pc < code.length then
    let b := code.get ⟨pc, h⟩
    let name := opcodeName b
    match pushSizeOfName name with
    | some n =>
      if pc + n < code.length then
        { name := name, opcode := b, pc := pc,
          pushData := some ((code.drop (pc + 1)).take n) } ::
          getOpcodesAux code (pc + n + 1)
      else
        { name := name, opcode := b, pc := pc, pushData := none } ::
          getOpcodesAux code (pc + 1)
    | none =>
      { name := name, opcode := b, pc := pc, pushData := none } ::
        getOpcodesAux code (pc + 1)
  else []
termination_by code.length - pc
decreasing_by
  all_goals omega

/-- The full scan of `EVM.getOpcodes`, from offset 0. -/
def getOpcodesList (code : List Nat) : List EvmOpcode :=
  getOpcodesAux code 0

/-- The `EVM` parser object of `src/modules/evm-opcodes.ts`: the decoded
bytecode (`this.code`) and the mutable cache field (`this.opcodes`,
initially empty). -/
structure EVM where
  code : List Nat
  opcodes : List EvmOpcode
deriving DecidableEq, Repr

/-- `new EVM(bytecode)`: the cache field starts empty. (The constructor's
hex-string decoding into `this.code` is orthogonal to the claims and the
byte buffer is taken directly.) -/
def EVM.ofCode (code : List Nat) : EVM :=
  { code := code, opcodes := [] }

/-- `EVM.getOpcodes` with its cache made explicit state: if the stored
list is non-empty return it unchanged, else parse, store and return. -/
def EVM.getOpcodes (e : EVM) : List EvmOpcode × EVM :=
  if e.opcodes.length > 0 then (e.opcodes, e)
  else
    let ops := getOpcodesList e.code
    (ops, { e with opcodes := ops })

-- Basic scanner facts shared by several claims.

theorem opcodeName_push4 : opcodeName 0x63 = "PUSH4" := rfl

theorem pushSizeOfName_push4 : pushSizeOfName "PUSH4" = some 4 := by decide

/-- Scanner step: past the end of the buffer the loop exits. -/
theorem getOpcodesAux_step_stop (code : List Nat) (pc : Nat)
    (h : code.length ≤ pc) : getOpcodesAux code pc = [] := by
  rw [getOpcodesAux.eq_def, dif_neg (by omega)]

/-- Scanner step: a PUSH instruction whose immediate lies inside the
buffer carries its immediate and the scan resumes after it. -/
theorem getOpcodesAux_step_push (code : List Nat) (pc b n : Nat)
    (hb : code[pc]? = some b) (hn : pushSizeOfName (opcodeName b) = some n)
    (hin : pc + n < code.length) :
    getOpcodesAux code pc =
      ⟨opcodeName b, b, pc, some ((code.drop (pc + 1)).take n)⟩ ::
        getOpcodesAux code (pc + n + 1) := by
  rcases List.getElem?_eq_some.mp hb with ⟨h, hbv⟩
  rw [getOpcodesAux.eq_def, dif_pos h]
  dsimp only
  rw [List.get_eq_getElem, hbv, hn]
  dsimp only
  rw [if_pos hin]

/-- Scanner step: a PUSH instruction whose declared immediate extends
past the buffer end carries no immediate and the scan resumes at the very
next byte. -/
theorem getOpcodesAux_step_trunc (code : List Nat) (pc b n : Nat)
    (hb : code[pc]? = some b) (hn : pushSizeOfName (opcodeName b) = some n)
    (hout : ¬ pc + n < code.length) :
    getOpcodesAux code pc =
      ⟨opcodeName b, b, pc, none⟩ :: getOpcodesAux code (pc + 1) := by
  rcases List.getElem?_eq_some.mp hb with ⟨h, hbv⟩
  rw [getOpcodesAux.eq_def, dif_pos h]
  dsimp only
  rw [List.get_eq_getElem, hbv, hn]
  dsimp only
  rw [if_neg hout]

/-- Scanner step: a non-PUSH instruction carries no immediate and the
scan resumes at the next byte. -/
theorem getOpcodesAux_step_plain (code : List Nat) (pc b : Nat)
    (hb : code[pc]? = some b) (hn : pushSizeOfName (opcodeName b) = none) :
    getOpcodesAux code pc =
      ⟨opcodeName b, b, pc, none⟩ :: getOpcodesAux code (pc + 1) := by
  rcases List.getElem?_eq_some.mp hb with ⟨h, hbv⟩
  rw [getOpcodesAux.eq_def, dif_pos h]
  dsimp only
  rw [List.get_eq_getElem, hbv, hn]

/-- A non-empty buffer scans to a non-empty opcode list. -/
theorem getOpcodesList_ne_nil (code : List Nat) (h : code ≠ []) :
    getOpcodesList code ≠ [] := by
  have hlen : 0 < code.length := List.length_pos.mpr h
  rw [getOpcodesList, getOpcodesAux.eq_def, dif_pos hlen]
  dsimp only
  split
  · split <;> simp
  · simp

/-- Every record the scanner emits lies inside the buffer: its program
counter is a valid offset and any attached immediate ends strictly before
the buffer length, so no read past the end ever happens. -/
theorem getOpcodesAux_inBounds (code : List Nat) :
    ∀ pc, ∀ op ∈ getOpcodesAux code pc,
      op.pc < code.length ∧
        ∀ d, op.pushData = some d → op.pc + d.length < code.length := by
  suffices hf : ∀ fuel pc, code.length - pc ≤ fuel →
      ∀ op ∈ getOpcodesAux code pc,
        op.pc < code.length ∧
          ∀ d, op.pushData = some d → op.pc + d.length < code.length by
    intro pc
    exact hf (code.length - pc) pc le_rfl
  intro fuel
  induction fuel with
  | zero =>
    intro pc hle op hop
    rw [getOpcodesAux_step_stop code pc (by omega)] at hop
    simp at hop
  | succ f ih =>
    intro pc hle op hop
    by_cases hpc : pc < code.length
    · rw [getOpcodesAux.eq_def, dif_pos hpc] at hop
      dsimp only at hop
      rcases hm : pushSizeOfName (opcodeName (code.get ⟨pc, hpc⟩)) with _ | n
      · rw [hm] at hop
        dsimp only at hop
        rcases List.mem_cons.mp hop with rfl | hop
        · exact ⟨hpc, by simp⟩
        · exact ih (pc + 1) (by omega) op hop
      · rw [hm] at hop
        dsimp only at hop
        by_cases hin : pc + n < code.length
        · rw [if_pos hin] at hop
          rcases List.mem_cons.mp hop with rfl | hop
          · refine ⟨hpc, ?_⟩
            intro d hd
            simp only [Option.some.injEq] at hd
            subst hd
            have hdlen : ((code.drop (pc + 1)).take n).length = n := by
              simp [List.length_take, List.length_drop]
              omega
            rw [hdlen]
            exact hin
          · exact ih (pc + n + 1) (by omega) op hop
        · rw [if_neg hin] at hop
          rcases List.mem_cons.mp hop with rfl | hop
          · exact ⟨hpc, by simp⟩
          · exact ih (pc + 1) (by omega) op hop
    · rw [getOpcodesAux_step_stop code pc (by omega)] at hop
      simp at hop

/-- C1: for every bytecode in which a PUSH4 instruction's 4-byte
immediate lies entirely within the buffer (`pc + 4 < code.length`), the
scanner records as that instruction's immediate exactly the 4 bytes at
offsets `pc + 1` through `pc + 4`, and the next opcode is decoded at
offset `pc + 5`. -/
theorem c1_push4_immediate_and_next_pc (code : List Nat) (pc : Nat)
    (hb : code[pc]? = some 0x63) (h4 : pc + 4 < code.length) :
    getOpcodesAux code pc =
      ⟨"PUSH4", 0x63, pc, some ((code.drop (pc + 1)).take 4)⟩ ::
        getOpcodesAux code (pc + 5) ∧
    ((code.drop (pc + 1)).take 4).length = 4 ∧
    (∀ j, j < 4 → ((code.drop (pc + 1)).take 4)[j]? = code[pc + 1 + j]?) := by
  refine ⟨?_, ?_, ?_⟩
  · have hstep := getOpcodesAux_step_push code pc 0x63 4 hb (by decide) h4
    rw [hstep]
    have h5 : pc + 4 + 1 = pc + 5 := by omega
    rw [h5, opcodeName_push4]
  · simp [List.length_take, List.length_drop]
    omega
  · intro j hj
    rw [List.getElem?_take, if_pos hj, List.getElem?_drop]

/-- Witness for C1 at the concrete buffer
`63 de ad be ef 00` (a PUSH4 followed by STOP). -/
theorem c1_push4_immediate_and_next_pc_witness :
    ([0x63, 0xde, 0xad, 0xbe, 0xef, 0x00] : List Nat)[0]? = some 0x63 ∧
    0 + 4 < ([0x63, 0xde, 0xad, 0xbe, 0xef, 0x00] : List Nat).length ∧
    (getOpcodesAux [0x63, 0xde, 0xad, 0xbe, 0xef, 0x00] 0 =
      ⟨"PUSH4", 0x63, 0,
        some ((([0x63, 0xde, 0xad, 0xbe, 0xef, 0x00] : List Nat).drop (0 + 1)).take 4)⟩ ::
        getOpcodesAux [0x63, 0xde, 0xad, 0xbe, 0xef, 0x00] (0 + 5) ∧
    ((([0x63, 0xde, 0xad, 0xbe, 0xef, 0x00] : List Nat).drop (0 + 1)).take 4).length = 4 ∧
    (∀ j, j < 4 →
      ((([0x63, 0xde, 0xad, 0xbe, 0xef, 0x00] : List Nat).drop (0 + 1)).take 4)[j]? =
        ([0x63, 0xde, 0xad, 0xbe, 0xef, 0x00] : List Nat)[0 + 1 + j]?)) :=
  ⟨by decide, by decide,
    c1_push4_immediate_and_next_pc [0x63, 0xde, 0xad, 0xbe, 0xef, 0x00] 0
      (by decide) (by decide)⟩

/-- C2 counterexample: on the bytecode `63 01 02` — a PUSH4 whose
declared 4-byte operand extends past the 3-byte buffer — the scan does
NOT terminate at the truncated push: it reinterprets the two bytes that
were declared as the truncated operand as the further instructions ADD
and MUL, so the emitted list has three records, not one. -/
theorem c2_truncated_push_counterexample :
    getOpcodesList [0x63, 0x01, 0x02] =
      [⟨"PUSH4", 0x63, 0, none⟩, ⟨"ADD", 0x01, 1, none⟩,
        ⟨"MUL", 0x02, 2, none⟩] ∧
    (getOpcodesList [0x63, 0x01, 0x02]).length ≠ 1 := by
  constructor
  · rw [getOpcodesList,
      getOpcodesAux_step_trunc _ 0 0x63 4 (by decide) (by decide) (by decide),
      getOpcodesAux_step_plain _ 1 0x01 (by decide) (by decide),
      getOpcodesAux_step_plain _ 2 0x02 (by decide) (by decide),
      getOpcodesAux_step_stop _ 3 (by decide)]
    decide
  · rw [getOpcodesList,
      getOpcodesAux_step_trunc _ 0 0x63 4 (by decide) (by decide) (by decide),
      getOpcodesAux_step_plain _ 1 0x01 (by decide) (by decide),
      getOpcodesAux_step_plain _ 2 0x02 (by decide) (by decide),
      getOpcodesAux_step_stop _ 3 (by decide)]
    decide

/-- C2 (amended): for a truncated push (declared operand length reaching
past the buffer end) the scanner (a) emits that push instruction with no
immediate — hence no candidate selector arises from it — and resumes
opcode decoding at the very next byte (thus the declared-operand bytes
ARE reinterpreted as further instructions), and (b) never reads past the
buffer length: every emitted record's offset is inside the buffer and
every attached immediate ends strictly before the buffer end. -/
theorem c2_truncated_push_amended (code : List Nat) (pc b n : Nat)
    (hb : code[pc]? = some b) (hn : pushSizeOfName (opcodeName b) = some n)
    (hout : ¬ pc + n < code.length) :
    getOpcodesAux code pc =
      ⟨opcodeName b, b, pc, none⟩ :: getOpcodesAux code (pc + 1) ∧
    (∀ q, ∀ op ∈ getOpcodesAux code q,
      op.pc < code.length ∧
        ∀ d, op.pushData = some d → op.pc + d.length < code.length) :=
  ⟨getOpcodesAux_step_trunc code pc b n hb hn hout, getOpcodesAux_inBounds code⟩

/-- Witness for the amended C2 at the concrete buffer `63 01 02`. -/
theorem c2_truncated_push_amended_witness :
    ([0x63, 0x01, 0x02] : List Nat)[0]? = some 0x63 ∧
    pushSizeOfName (opcodeName 0x63) = some 4 ∧
    ¬ 0 + 4 < ([0x63, 0x01, 0x02] : List Nat).length ∧
    (getOpcodesAux [0x63, 0x01, 0x02] 0 =
      ⟨opcodeName 0x63, 0x63, 0, none⟩ :: getOpcodesAux [0x63, 0x01, 0x02] (0 + 1) ∧
    (∀ q, ∀ op ∈ getOpcodesAux [0x63, 0x01, 0x02] q,
      op.pc < ([0x63, 0x01, 0x02] : List Nat).length ∧
        ∀ d, op.pushData = some d →
          op.pc + d.length < ([0x63, 0x01, 0x02] : List Nat).length)) :=
  ⟨by decide, by decide, by decide,
    c2_truncated_push_amended [0x63, 0x01, 0x02] 0 0x63 4
      (by decide) (by decide) (by decide)⟩

/-- C10: `EVM.getOpcodes` is idempotent for non-empty bytecode — the
second call is served from the cache field, returns the same opcode list
as the first and leaves the stored state unchanged (no re-parse, no
appended duplicates). -/
theorem c10_getOpcodes_idempotent (code : List Nat) (h : code ≠ []) :
    (EVM.getOpcodes (EVM.getOpcodes (EVM.ofCode code)).2).1
      = (EVM.getOpcodes (EVM.ofCode code)).1 ∧
    (EVM.getOpcodes (EVM.getOpcodes (EVM.ofCode code)).2).2
      = (EVM.getOpcodes (EVM.ofCode code)).2 := by
  have h1 : EVM.getOpcodes (EVM.ofCode code) =
      (getOpcodesList code, ⟨code, getOpcodesList code⟩) := by
    rw [EVM.getOpcodes]
    simp [EVM.ofCode]
  have hpos : 0 < (getOpcodesList code).length :=
    List.length_pos.mpr (getOpcodesList_ne_nil code h)
  have h2 : EVM.getOpcodes ⟨code, getOpcodesList code⟩ =
      (getOpcodesList code, ⟨code, getOpcodesList code⟩) := by
    rw [EVM.getOpcodes, if_pos hpos]
  rw [h1]
  exact ⟨by rw [h2], by rw [h2]⟩

/-- Witness for C10 at the one-byte bytecode `00` (STOP). -/
theorem c10_getOpcodes_idempotent_witness :
    ([0x00] : List Nat) ≠ [] ∧
    ((EVM.getOpcodes (EVM.getOpcodes (EVM.ofCode [0x00])).2).1
        = (EVM.getOpcodes (EVM.ofCode [0x00])).1 ∧
      (EVM.getOpcodes (EVM.getOpcodes (EVM.ofCode [0x00])).2).2
        = (EVM.getOpcodes (EVM.ofCode [0x00])).2) :=
  ⟨by decide, c10_getOpcodes_idempotent [0x00] (by decide)⟩

/-!
## Revert-reason normalization and parallel invocation
(`src/groupcall/groupcall-viem.ts`)
-/

/-- The ASCII whitespace characters recognised by JavaScript `trim()` and
by the regex class `\s` (space, tab, line feed, carriage return, vertical
tab, form feed; the Unicode space classes do not occur in the inputs of
interest). -/
def wsChar (c : Char) : Bool :=
  c = ' ' || c = '\t' || c = '\n' || c = '\r' ||
    c = Char.ofNat 11 || c = Char.ofNat 12

/-- Drop the longest suffix whose characters satisfy `p`. -/
def dropEndWhile (p : Char → Bool) (l : List Char) : List Char :=
  (l.reverse.dropWhile p).reverse

/-- JavaScript `trim()` on a character list. -/
def jsTrimList (l : List Char) : List Char :=
  dropEndWhile wsChar (l.dropWhile wsChar)

/-- JavaScript `toLowerCase()` on an ASCII character. -/
def toLowerChar (c : Char) : Char :=
  if 'A' ≤ c && c ≤ 'Z' then Char.ofNat (c.toNat + 32) else c

/-- JavaScript `indexOf`: the index of the first occurrence of `pat`
inside `l`, or `none` for `-1`. -/
def indexOfSub? (l pat : List Char) : Option Nat :=
  if pat.isPrefixOf l then some 0
  else
    match l with
    | [] => none
    | _ :: t => (indexOfSub? t pat).map (fun i => i + 1)

/-- A character matched by the regex class `[:\s]`. -/
def colonWs (c : Char) : Bool :=
  c = ':' || wsChar c

/-- `normalizeRevertReason` of `src/groupcall/groupcall-viem.ts`
(lines 59–91): empty input defaults to the literal; text is truncated at
the first `"0x"` occurrence; a leading `execution reverted` is stripped
after case-insensitive comparison; separators (`[:\s]`) are trimmed on
both ends; an empty remainder defaults to the literal; a remainder of at
most 10 characters is wrapped as `execution reverted: <text>`. -/
def normalizeRevertReason (input : String) : String :=
  if input = "" then "execution reverted"
  else
    let t0 := input.data
    let t1 :=
      match indexOfSub? t0 ['0', 'x'] with
      | some i => t0.take i
      | none => t0
    let t2 := jsTrimList t1
    let t3 :=
      if "execution reverted".data.isPrefixOf (t2.map toLowerChar) then
        t2.drop "execution reverted".data.length
      else t2
    let t4 := jsTrimList t3
    let t5 := dropEndWhile colonWs (t4.dropWhile colonWs)
    if t5 = [] then "execution reverted"
    else if t5.length ≤ 10 then "execution reverted: " ++ String.mk t5
    else String.mk t5

/-- C3 counterexample: the normalizer truncates at the first `"0x"`, so
the reason text after the hex payload is discarded, not kept: the input
`"execution reverted: 0xdeadbeef Some reason"` maps to
`"execution reverted"`, not to `"Some reason"` as claimed. -/
theorem c3_normalize_counterexample :
    normalizeRevertReason "execution reverted: 0xdeadbeef Some reason" =
      "execution reverted" ∧
    normalizeRevertReason "execution reverted: 0xdeadbeef Some reason" ≠
      "Some reason" := by
  constructor
  · decide
  · decide

/-- C3 (amended): the normalizer maps
`"execution reverted: 0xdeadbeef Some reason"` to `"execution reverted"`
(everything from the first embedded hex payload onward is discarded, so
no reason text survives), maps the empty string to `"execution reverted"`
and maps `"ab"` (at or below 10 characters) to
`"execution reverted: ab"`. -/
theorem c3_normalize_amended :
    normalizeRevertReason "execution reverted: 0xdeadbeef Some reason" =
      "execution reverted" ∧
    normalizeRevertReason "" = "execution reverted" ∧
    normalizeRevertReason "ab" = "execution reverted: ab" := by
  refine ⟨by decide, by decide, by decide⟩

/-- A call for the parallel invoker, the `MulticallCall` interface of
`src/groupcall/calldata.ts`: target address and encoded calldata. -/
structure MulticallCall where
  target : String
  callData : String
deriving DecidableEq, Repr

/-- One result entry of `groupcall`: success flag, raw returned bytes and
(possibly empty) revert reason. -/
structure CallOutcome where
  success : Bool
  returnData : String
  revertReason : String
deriving DecidableEq, Repr

/-- The outcome of one underlying `client.call` as seen by `groupcall`'s
per-call closure: either it resolves (with possibly absent `data`), or it
throws an error whose `details` field may or may not be a string. -/
inductive RpcResult where
  | ok (data : Option String)
  | err (details : Option String)
deriving DecidableEq, Repr

/-- The body of `groupcall`'s per-call closure
(`src/groupcall/groupcall-viem.ts`, lines 21–48): on success, the raw
bytes (`result.data ?? "0x"`) with an empty revert reason; on failure,
`"0x"` with the normalized `error.details` when that is a string, else
the literal `"execution reverted"`. -/
def callOutcome : RpcResult → CallOutcome
  | .ok d => ⟨true, d.getD "0x", ""⟩
  | .err (some s) => ⟨false, "0x", normalizeRevertReason s⟩
  | .err none => ⟨false, "0x", "execution reverted"⟩

/-- `calldata.map(async (call) => ...)` with each promise's underlying
call outcome given by the oracle `net` (indexed by the call's position,
since each promise is issued independently), starting at index `i`. -/
def groupcallGo (net : Nat → MulticallCall → RpcResult) (i : Nat) :
    List MulticallCall → List CallOutcome
  | [] => []
  | c :: rest => callOutcome (net i c) :: groupcallGo net (i + 1) rest

/-- `groupcall` of `src/groupcall/groupcall-viem.ts`: the ordered list of
per-call outcomes. -/
def groupcall (net : Nat → MulticallCall → RpcResult)
    (calls : List MulticallCall) : List CallOutcome :=
  groupcallGo net 0 calls

/-- `Promise.all`'s completion semantics made explicit: an output slot
array, initially unfilled, into which each promise writes its own result
when it completes; `order` is the completion order (a permutation of the
indices). -/
def promiseAllRun (outs : List CallOutcome) (order : List Nat) :
    List (Option CallOutcome) :=
  order.foldl (fun acc i => acc.set i outs[i]?)
    (List.replicate outs.length none)

theorem groupcallGo_length (net : Nat → MulticallCall → RpcResult) :
    ∀ (calls : List MulticallCall) (i : Nat),
      (groupcallGo net i calls).length = calls.length := by
  intro calls
  induction calls with
  | nil => intro i; rfl
  | cons c rest ih => intro i; simp [groupcallGo, ih]

theorem groupcallGo_getElem? (net : Nat → MulticallCall → RpcResult) :
    ∀ (calls : List MulticallCall) (i j : Nat),
      (groupcallGo net i calls)[j]? =
        (calls[j]?).map (fun c => callOutcome (net (i + j) c)) := by
  intro calls
  induction calls with
  | nil => intro i j; simp [groupcallGo]
  | cons c rest ih =>
    intro i j
    cases j with
    | zero => simp [groupcallGo]
    | succ j =>
      have hidx : i + 1 + j = i + (j + 1) := by omega
      simp only [groupcallGo, List.getElem?_cons_succ, ih (i + 1) j, hidx]

-- The `Promise.all` slot-filling machine, step by step.

theorem foldlSet_length (outs : List CallOutcome) :
    ∀ (order : List Nat) (acc : List (Option CallOutcome)),
      (order.foldl (fun acc i => acc.set i outs[i]?) acc).length
        = acc.length := by
  intro order
  induction order with
  | nil => intro acc; rfl
  | cons i rest ih =>
    intro acc
    simp only [List.foldl_cons, ih, List.length_set]

theorem foldlSet_get_notMem (outs : List CallOutcome) :
    ∀ (order : List Nat) (acc : List (Option CallOutcome)) (j : Nat),
      j ∉ order →
      (order.foldl (fun acc i => acc.set i outs[i]?) acc)[j]? = acc[j]? := by
  intro order
  induction order with
  | nil => intro acc j _; rfl
  | cons i rest ih =>
    intro acc j hj
    simp only [List.mem_cons, not_or] at hj
    simp only [List.foldl_cons, ih _ j hj.2,
      List.getElem?_set_ne (fun h => hj.1 h.symm)]

theorem foldlSet_get_mem (outs : List CallOutcome) :
    ∀ (order : List Nat) (acc : List (Option CallOutcome)) (j : Nat),
      j ∈ order → j < acc.length →
      (order.foldl (fun acc i => acc.set i outs[i]?) acc)[j]?
        = some outs[j]? := by
  intro order
  induction order with
  | nil => intro acc j hj; exact absurd hj (List.not_mem_nil j)
  | cons i rest ih =>
    intro acc j hj hlen
    by_cases hjr : j ∈ rest
    · simp only [List.foldl_cons]
      exact ih _ j hjr (by rw [List.length_set]; exact hlen)
    · have hij : j = i := by
        rcases List.mem_cons.mp hj with h | h
        · exact h
        · exact absurd h hjr
      subst hij
      simp only [List.foldl_cons]
      rw [foldlSet_get_notMem outs rest _ j hjr,
        List.getElem?_set_eq_of_lt _ hlen]

/-- Regardless of the completion order (any permutation of the indices),
the `Promise.all` slot machine delivers exactly the outcome list in input
order. -/
theorem promiseAllRun_order_independent (outs : List CallOutcome)
    (order : List Nat) (hperm : order.Perm (List.range outs.length)) :
    promiseAllRun outs order = outs.map some := by
  apply List.ext_getElem?
  intro j
  by_cases hj : j < outs.length
  · have hmem : j ∈ order := hperm.mem_iff.mpr (List.mem_range.mpr hj)
    rw [promiseAllRun, foldlSet_get_mem outs order _ j hmem
      (by rw [List.length_replicate]; exact hj)]
    rw [List.getElem?_map, List.getElem?_eq_getElem hj]
    simp [List.getElem?_eq_getElem hj]
  · have h1 : (promiseAllRun outs order).length = outs.length := by
      rw [promiseAllRun, foldlSet_length, List.length_replicate]
    have h2 : (outs.map some).length = outs.length := by simp
    rw [List.getElem?_eq_none
        (show (promiseAllRun outs order).length ≤ j by rw [h1]; omega),
      List.getElem?_eq_none
        (show (outs.map some).length ≤ j by rw [h2]; omega)]

/-- C7: for every list of N calls, `groupcall` returns exactly N outcomes
in input order regardless of completion order (the `Promise.all` slot
machine delivers the same list for every completion permutation); if call
k fails (its error carrying detail text) and all others succeed, then
outcome k has `success = false` with the normalized revert reason while
every other outcome has `success = true` with its raw returned bytes —
one call's failure never affects a sibling's outcome. -/
theorem c7_groupcall_order_and_isolation
    (net : Nat → MulticallCall → RpcResult) (calls : List MulticallCall)
    (k : Nat) (errText : String) (datas : Nat → String)
    (hk : k < calls.length)
    (hfail : ∀ c, calls[k]? = some c → net k c = .err (some errText))
    (hok : ∀ i c, i ≠ k → calls[i]? = some c → net i c = .ok (some (datas i))) :
    (groupcall net calls).length = calls.length ∧
    (groupcall net calls)[k]? =
      some ⟨false, "0x", normalizeRevertReason errText⟩ ∧
    (∀ i, i < calls.length → i ≠ k →
      (groupcall net calls)[i]? = some ⟨true, datas i, ""⟩) ∧
    (∀ order, order.Perm (List.range calls.length) →
      promiseAllRun (groupcall net calls) order
        = (groupcall net calls).map some) := by
  have hlen : (groupcall net calls).length = calls.length :=
    groupcallGo_length net calls 0
  refine ⟨hlen, ?_, ?_, ?_⟩
  · rw [groupcall, groupcallGo_getElem?, List.getElem?_eq_getElem hk]
    have hf := hfail calls[k] (List.getElem?_eq_getElem hk)
    simp [Nat.zero_add, hf, callOutcome]
  · intro i hi hik
    rw [groupcall, groupcallGo_getElem?, List.getElem?_eq_getElem hi]
    have ho := hok i calls[i] hik (List.getElem?_eq_getElem hi)
    simp [Nat.zero_add, ho, callOutcome]
  · intro order hperm
    exact promiseAllRun_order_independent (groupcall net calls) order
      (by rw [hlen]; exact hperm)

/-- Concrete call list for the C7 witness. -/
def c7calls : List MulticallCall := [⟨"0xA", "0x01"⟩, ⟨"0xB", "0x02"⟩]

/-- Concrete network oracle for the C7 witness: call 0 rejects with
detail text `"service is down now"`, every other call resolves. -/
def c7net : Nat → MulticallCall → RpcResult :=
  fun i _ =>
    if i = 0 then .err (some "service is down now") else .ok (some "0xdd")

/-- Concrete success payloads for the C7 witness. -/
def c7datas : Nat → String := fun _ => "0xdd"

/-- Witness for C7: two calls where call 0 fails and call 1 succeeds. -/
theorem c7_groupcall_order_and_isolation_witness :
    (0 < c7calls.length ∧
      (∀ c, c7calls[0]? = some c →
        c7net 0 c = .err (some "service is down now")) ∧
      (∀ i c, i ≠ 0 → c7calls[i]? = some c →
        c7net i c = .ok (some (c7datas i)))) ∧
    ((groupcall c7net c7calls).length = c7calls.length ∧
      (groupcall c7net c7calls)[0]? =
        some ⟨false, "0x", normalizeRevertReason "service is down now"⟩ ∧
      (∀ i, i < c7calls.length → i ≠ 0 →
        (groupcall c7net c7calls)[i]? = some ⟨true, c7datas i, ""⟩) ∧
      (∀ order, order.Perm (List.range c7calls.length) →
        promiseAllRun (groupcall c7net c7calls) order
          = (groupcall c7net c7calls).map some)) :=
  ⟨⟨by decide, fun c _ => rfl, fun i c hi _ => by simp [c7net, c7datas, hi]⟩,
    c7_groupcall_order_and_isolation c7net c7calls 0 "service is down now"
      c7datas (by decide) (fun c _ => rfl)
      (fun i c hi _ => by simp [c7net, c7datas, hi])⟩

/-!
## Heuristic response decoding (`src/modules/try-decode-resp.ts`)

The `viem` ABI machinery used by `decodeResp` is external to the
repository; it is modelled as follows, following `viem`'s
`decodeAbiParameters`:
* `uint256` decoding of a 32-byte word is hex parsing — it fails exactly
  when the payload contains a non-hex character;
* `address` decoding of a 32-byte word takes the low 20 bytes of the word
  (the last 40 hex digits, rendered lowercase by `bytesToHex`) and
  returns their checksummed form; it does not reject words whose upper
  12 bytes are non-zero, so on valid hex it always succeeds;
* the checksumming function (`checksumAddress`, a pure re-casing of the
  hex letters) and `string` ABI decoding are kept abstract as oracle
  fields of `AbiEnv`.
-/

/-- The numeric value of one hex digit, or `none`. -/
def hexDigitVal? (c : Char) : Option Nat :=
  if '0' ≤ c && c ≤ '9' then some (c.toNat - 48)
  else if 'a' ≤ c && c ≤ 'f' then some (c.toNat - 87)
  else if 'A' ≤ c && c ≤ 'F' then some (c.toNat - 55)
  else none

/-- Big-endian hex parsing of a digit list; `none` as soon as one
character is not a hex digit (the failure mode of `viem`'s
`hexToBytes`). -/
def hexToNat? (l : List Char) : Option Nat :=
  l.foldl
    (fun acc c =>
      match acc, hexDigitVal? c with
      | some n, some d => some (n * 16 + d)
      | _, _ => none)
    (some 0)

/-- The external `viem` decode facilities `decodeResp` relies on:
`checksum` is `checksumAddress` (re-cases the 40 hex digits of an
address), `decodeString` is `decodeAbiParameters([{type:'string'}], ·)`
(`none` when it throws). -/
structure AbiEnv where
  checksum : String → String
  decodeString : String → Option String

/-- `decodeAbiParameters([{type:'address'}], data)` on a 66-character
word, modelled from `viem`: fails on invalid hex, otherwise checksums
the low 20 bytes (the last 40 hex digits, lowercased). -/
def decodeAddress? (env : AbiEnv) (data : String) : Option String :=
  if (hexToNat? (data.data.drop 2)).isSome then
    some (env.checksum
      ("0x" ++ String.mk ((data.data.drop (data.data.length - 40)).map toLowerChar)))
  else none

/-- `decodeResp` of `src/modules/try-decode-resp.ts` (lines 17–120):
the ordered length-keyed heuristic decode table. Every branch that can
throw is a `match` on an `Option`, with the catch clause as the `none`
arm. -/
def decodeResp (env : AbiEnv) (data : String) : String :=
  if data.length ≤ 2 then "execution reverted"
  else if data.length = 66 then
    match hexToNat? (data.data.drop 2) with
    | some n =>
      if n = 57005 ∨ ((toString n).length > 35 ∧ (toString n).length < 51) then
        match decodeAddress? env data with
        | some a => a
        | none => toString n
      else toString n
    | none =>
      match decodeAddress? env data with
      | some a => a
      | none => "execution reverted"
  else if data.length = 130 then
    match hexToNat? (data.data.drop 2), hexToNat? ((data.data.drop 2).take 64) with
    | some _, some n => toString n
    | _, _ => "execution reverted"
  else if data.length = 194 then
    match env.decodeString data with
    | some s => s
    | none => "execution reverted"
  else if 194 < data.length then "could not decode the response"
  else if data.length ≤ 10 then "execution reverted"
  else
    match env.decodeString ("0x" ++ data.drop 10) with
    | some s => s
    | none => "execution reverted"

/-- The concrete `AbiEnv` used for closed evaluations: checksumming is
the identity (it only re-cases letters, and the payloads of interest are
digits-only or already lowercase), string decoding is never needed. -/
def idAbiEnv : AbiEnv :=
  { checksum := fun s => s, decodeString := fun _ => none }

/-- The `some` case of `decodeAddress?` always yields a checksummed
string. -/
theorem decodeAddress?_inv (env : AbiEnv) (data a : String)
    (h : decodeAddress? env data = some a) : ∃ s, a = env.checksum s := by
  unfold decodeAddress? at h
  split at h
  · exact ⟨_, (Option.some.inj h).symm⟩
  · cases h

/-- C4 counterexample: the word encoding `10 ^ 49` — whose decimal
representation has exactly 50 digits, so NOT strictly between 35 and 50 —
is nevertheless re-decoded as an address (the code's bound is
`< 51`, i.e. up to 50 digits inclusive), so `decodeResp` returns the
address string of its low 20 bytes instead of the decimal string the
claim prescribes. -/
theorem c4_decode_counterexample :
    hexToNat?
        ("0x000000000000000000000006d79f82328ea3da61e066ebb2f88a000000000000".data.drop 2)
      = some (10 ^ 49) ∧
    (toString (10 ^ 49 : Nat)).length = 50 ∧
    ¬((10 ^ 49 : Nat) = 57005 ∨
      ((toString (10 ^ 49 : Nat)).length > 35 ∧
        (toString (10 ^ 49 : Nat)).length < 50)) ∧
    decodeResp idAbiEnv
        "0x000000000000000000000006d79f82328ea3da61e066ebb2f88a000000000000"
      = "0xd79f82328ea3da61e066ebb2f88a000000000000" ∧
    decodeResp idAbiEnv
        "0x000000000000000000000006d79f82328ea3da61e066ebb2f88a000000000000"
      ≠ toString (10 ^ 49 : Nat) := by
  refine ⟨by decide, by decide, by decide, by decide, by decide⟩

/-- C4 (amended): for every 66-character input whose integer decode
succeeds with value n, `decodeResp` re-attempts the word as a 20-byte
address — returning the checksummed low-20-bytes address string — exactly
when n equals 57005 or the decimal representation of n has strictly
between 35 and 51 digits (36 to 50 inclusive); otherwise it returns the
decimal string. In particular the word encoding 57005 decodes to the
address string `0x…dead`, not to the string `"57005"`. -/
theorem c4_decode_word_amended (env : AbiEnv) (data : String) (n : Nat)
    (hlen : data.length = 66) (hn : hexToNat? (data.data.drop 2) = some n) :
    (decodeResp env data =
      if n = 57005 ∨ ((toString n).length > 35 ∧ (toString n).length < 51) then
        env.checksum
          ("0x" ++ String.mk ((data.data.drop (data.data.length - 40)).map toLowerChar))
      else toString n) ∧
    decodeResp idAbiEnv
        "0x000000000000000000000000000000000000000000000000000000000000dead"
      = "0x000000000000000000000000000000000000dead" ∧
    decodeResp idAbiEnv
        "0x000000000000000000000000000000000000000000000000000000000000dead"
      ≠ "57005" := by
  refine ⟨?_, by decide, by decide⟩
  unfold decodeResp
  rw [if_neg (by omega), if_pos hlen, hn]
  dsimp only
  split
  · simp [decodeAddress?, hn]
  · rfl

/-- Witness for the amended C4 at the word encoding 57005. -/
theorem c4_decode_word_amended_witness :
    (("0x000000000000000000000000000000000000000000000000000000000000dead" : String).length
        = 66 ∧
      hexToNat?
        ("0x000000000000000000000000000000000000000000000000000000000000dead".data.drop 2)
        = some 57005) ∧
    ((decodeResp idAbiEnv
        "0x000000000000000000000000000000000000000000000000000000000000dead" =
      if (57005 : Nat) = 57005 ∨
          ((toString (57005 : Nat)).length > 35 ∧ (toString (57005 : Nat)).length < 51) then
        idAbiEnv.checksum
          ("0x" ++ String.mk
            (("0x000000000000000000000000000000000000000000000000000000000000dead".data.drop
              ("0x000000000000000000000000000000000000000000000000000000000000dead".data.length - 40)).map
              toLowerChar))
      else toString (57005 : Nat)) ∧
      decodeResp idAbiEnv
          "0x000000000000000000000000000000000000000000000000000000000000dead"
        = "0x000000000000000000000000000000000000dead" ∧
      decodeResp idAbiEnv
          "0x000000000000000000000000000000000000000000000000000000000000dead"
        ≠ "57005") :=
  ⟨⟨by decide, by decide⟩,
    c4_decode_word_amended idAbiEnv
      "0x000000000000000000000000000000000000000000000000000000000000dead"
      57005 (by decide) (by decide)⟩

/-- C5: `decodeResp` is total and never propagates an exception: for
every environment and every input string, the result is one of the fixed
literals (`"execution reverted"`, `"could not decode the response"`), a
decimal integer string, a checksummed address string, or a successfully
ABI-decoded string — every throwing decode branch is caught (the `none`
arms) and converted to a listed literal. -/
theorem c5_decodeResp_total (env : AbiEnv) (data : String) :
    decodeResp env data = "execution reverted" ∨
    decodeResp env data = "could not decode the response" ∨
    (∃ n : Nat, decodeResp env data = toString n) ∨
    (∃ a : String, decodeResp env data = env.checksum a) ∨
    (∃ w s, env.decodeString w = some s ∧ decodeResp env data = s) := by
  unfold decodeResp
  repeat' split
  all_goals
    first
      | exact Or.inl rfl
      | exact Or.inr (Or.inl rfl)
      | (right; right; left; exact ⟨_, rfl⟩)
      | skip
  case _ a heq =>
    right; right; right; left
    exact decodeAddress?_inv _ _ _ heq
  case _ a heq =>
    right; right; right; left
    exact decodeAddress?_inv _ _ _ heq
  case _ s heq =>
    right; right; right; right
    exact ⟨_, _, heq, rfl⟩
  case _ s heq =>
    right; right; right; right
    exact ⟨_, _, heq, rfl⟩

/-!
## EIP-1967 proxy resolution (`src/modules/proxy-implementation.ts`)

The viem `PublicClient` is an oracle: storage reads, code fetches and
read calls return what the chain would. `getAddress` (viem's
checksummer) is a field of the oracle as well.
-/

/-- The zero address literal used by `detectProxyImplementation`. -/
def zeroAddress : String := "0x0000000000000000000000000000000000000000"

/-- `bytes32(uint256(keccak256("eip1967.proxy.implementation")) - 1)`. -/
def IMPLEMENTATION_SLOT : String :=
  "0x360894a13ba1a3210667c828492db98dca3e2076cc3735a920a3ca505d382bbc"

/-- `bytes32(uint256(keccak256("eip1967.proxy.beacon")) - 1)`. -/
def BEACON_SLOT : String :=
  "0xa3f0ad74e5423aebfd80d3ef4346578335a9a72aeaee59ff6cb3582b35133d50"

/-- `keccak256("implementation()")[0:4]`. -/
def BEACON_IMPLEMENTATION_SELECTOR : String := "0x5c60da1b"

/-- The result shape of `detectProxyImplementation`. -/
structure ProxyResolution where
  isProxy : Bool
  proxy : String
  implementation : String
  implementationBytecode : String
deriving DecidableEq, Repr

/-- The result of one `await client.call` as `detectProxyImplementation`
sees it: viem's `call` THROWS on revert (there is no try/catch in this
function, so a throw propagates); otherwise it resolves, with `data`
possibly absent. -/
inductive CallReply where
  | thrown
  | resolved (data : Option String)
deriving DecidableEq, Repr

/-- The result of `slotToAddress`: either `null`/an address, or a
propagated throw from viem's `getAddress` (which throws on malformed
input). -/
inductive SlotResult where
  | thrown
  | addr (a : Option String)
deriving DecidableEq, Repr

/-- The observable outcome of `detectProxyImplementation`: a returned
resolution, or an uncaught exception propagating to the caller. -/
inductive ProxyOutcome where
  | thrown
  | returns (r : ProxyResolution)
deriving DecidableEq, Repr

/-- The viem `PublicClient` as an oracle: `getStorageAt` (address, slot)
and `getCode` (address), each possibly absent; `call` (to, data), which
throws on revert; and the `getAddress` checksummer, which returns the
checksummed address or throws (`none`) on malformed input. -/
structure ProxyClient where
  getStorageAt : String → String → Option String
  getCode : String → Option String
  call : String → String → CallReply
  getAddress : String → Option String

/-- `slotToAddress` of `src/modules/proxy-implementation.ts`
(lines 141–153): absent or `"0x"` slot values give `null`; otherwise the
last 40 hex characters (`value.slice(-40)`) prefixed with `0x`; the zero
address gives `null`; anything else goes through `getAddress`, whose
throw on a malformed value (e.g. slot data shorter than 40 hex
characters yields `"0x0x…"`) propagates. -/
def slotToAddress (getAddr : String → Option String) (value : Option String) :
    SlotResult :=
  match value with
  | none => .addr none
  | some v =>
    if v = "" ∨ v = "0x" then .addr none
    else
      let addr := "0x" ++ String.mk (v.data.drop (v.data.length - 40))
      if addr = zeroAddress then .addr none
      else
        match getAddr addr with
        | some a => .addr (some a)
        | none => .thrown

/-- `!code || code === "0x"`: the test under which a fetched bytecode
does NOT validate an implementation address. -/
def codeEmpty : Option String → Bool
  | none => true
  | some s => s = "" || s = "0x"

/-- The `emptyResult` constant of `detectProxyImplementation`:
`isProxy = false`, the zero address, empty bytecode. -/
def emptyResult (address : String) : ProxyResolution :=
  ⟨false, address, zeroAddress, "0x"⟩

/-- The beacon phase of `detectProxyImplementation` (lines 219–258):
read the beacon slot, call `implementation()` on the beacon, interpret
the returned word as an address, validate its code. Each negative check
returns `emptyResult`, but a throwing `call` or `getAddress` propagates
(the function has no try/catch). -/
def beaconPhase (client : ProxyClient) (address : String) : ProxyOutcome :=
  match slotToAddress client.getAddress (client.getStorageAt address BEACON_SLOT) with
  | .thrown => .thrown
  | .addr none => .returns (emptyResult address)
  | .addr (some beaconAddress) =>
    match client.call beaconAddress BEACON_IMPLEMENTATION_SELECTOR with
    | .thrown => .thrown
    | .resolved dOpt =>
      match dOpt with
      | none => .returns (emptyResult address)
      | some d =>
        if d = "" ∨ d = "0x" then .returns (emptyResult address)
        else
          match slotToAddress client.getAddress (some d) with
          | .thrown => .thrown
          | .addr none => .returns (emptyResult address)
          | .addr (some beaconImplementation) =>
            match client.getCode beaconImplementation with
            | none => .returns (emptyResult address)
            | some bc =>
              if bc = "" ∨ bc = "0x" then .returns (emptyResult address)
              else .returns ⟨true, address, beaconImplementation, bc⟩

/-- `detectProxyImplementation` of
`src/modules/proxy-implementation.ts` (lines 179–259): read the
implementation slot; if it holds an address whose code is non-empty,
return `isProxy = true` with it; otherwise fall through to the beacon
phase. A throw from `getAddress` on the slot value propagates. -/
def detectProxyImplementation (client : ProxyClient) (address : String) :
    ProxyOutcome :=
  match slotToAddress client.getAddress
      (client.getStorageAt address IMPLEMENTATION_SLOT) with
  | .thrown => .thrown
  | .addr none => beaconPhase client address
  | .addr (some implementation) =>
    match client.getCode implementation with
    | none => beaconPhase client address
    | some code =>
      if code = "" ∨ code = "0x" then beaconPhase client address
      else .returns ⟨true, address, implementation, code⟩

/-- When no step of the beacon phase throws and every address it
produces has empty code, the beacon phase returns `emptyResult`. -/
theorem beaconPhase_empty (client : ProxyClient) (address : String)
    (hbSlot : slotToAddress client.getAddress
        (client.getStorageAt address BEACON_SLOT) ≠ .thrown)
    (hcall : ∀ b, slotToAddress client.getAddress
        (client.getStorageAt address BEACON_SLOT) = .addr (some b) →
      client.call b BEACON_IMPLEMENTATION_SELECTOR ≠ .thrown)
    (hdata : ∀ b d, slotToAddress client.getAddress
        (client.getStorageAt address BEACON_SLOT) = .addr (some b) →
      client.call b BEACON_IMPLEMENTATION_SELECTOR = .resolved (some d) →
      ¬(d = "" ∨ d = "0x") →
      slotToAddress client.getAddress (some d) ≠ .thrown)
    (hempty : ∀ bimpl b d, slotToAddress client.getAddress
        (client.getStorageAt address BEACON_SLOT) = .addr (some b) →
      client.call b BEACON_IMPLEMENTATION_SELECTOR = .resolved (some d) →
      ¬(d = "" ∨ d = "0x") →
      slotToAddress client.getAddress (some d) = .addr (some bimpl) →
      codeEmpty (client.getCode bimpl) = true) :
    beaconPhase client address = .returns (emptyResult address) := by
  unfold beaconPhase
  cases hb : slotToAddress client.getAddress
      (client.getStorageAt address BEACON_SLOT) with
  | thrown => exact absurd hb hbSlot
  | addr bOpt =>
    cases bOpt with
    | none => rfl
    | some b =>
      dsimp only
      cases hc : client.call b BEACON_IMPLEMENTATION_SELECTOR with
      | thrown => exact absurd hc (hcall b hb)
      | resolved dOpt =>
        dsimp only
        cases dOpt with
        | none => rfl
        | some d =>
          dsimp only
          by_cases hd : d = "" ∨ d = "0x"
          · rw [if_pos hd]
          · rw [if_neg hd]
            cases hsa : slotToAddress client.getAddress (some d) with
            | thrown => exact absurd hsa (hdata b d hb hc hd)
            | addr iOpt =>
              cases iOpt with
              | none => rfl
              | some bimpl =>
                dsimp only
                have hce := hempty bimpl b d hb hc hd hsa
                cases hcode : client.getCode bimpl with
                | none => rfl
                | some bc =>
                  dsimp only
                  rw [hcode] at hce
                  have : bc = "" ∨ bc = "0x" := by
                    simpa [codeEmpty] using hce
                  rw [if_pos this]

/-- C6 (amended): when the implementation-slot read itself does not
throw and any address it holds has empty code, resolution falls through
to the beacon phase (neither `isProxy = true` nor an error at that
step); if additionally no beacon step throws and no beacon address
carries non-empty code, the result is `isProxy = false` with the zero
address and empty (`"0x"`) bytecode; BUT if the beacon
`implementation()` call throws (viem raises on revert and the function
has no try/catch), the exception propagates and the function raises
instead of returning `isProxy = false`. -/
theorem c6_proxy_amended (client : ProxyClient) (address : String)
    (hns : slotToAddress client.getAddress
        (client.getStorageAt address IMPLEMENTATION_SLOT) ≠ .thrown)
    (himpl : ∀ impl, slotToAddress client.getAddress
        (client.getStorageAt address IMPLEMENTATION_SLOT) = .addr (some impl) →
      codeEmpty (client.getCode impl) = true) :
    detectProxyImplementation client address = beaconPhase client address ∧
    ((slotToAddress client.getAddress
        (client.getStorageAt address BEACON_SLOT) ≠ .thrown) →
      (∀ b, slotToAddress client.getAddress
          (client.getStorageAt address BEACON_SLOT) = .addr (some b) →
        client.call b BEACON_IMPLEMENTATION_SELECTOR ≠ .thrown) →
      (∀ b d, slotToAddress client.getAddress
          (client.getStorageAt address BEACON_SLOT) = .addr (some b) →
        client.call b BEACON_IMPLEMENTATION_SELECTOR = .resolved (some d) →
        ¬(d = "" ∨ d = "0x") →
        slotToAddress client.getAddress (some d) ≠ .thrown) →
      (∀ bimpl b d, slotToAddress client.getAddress
          (client.getStorageAt address BEACON_SLOT) = .addr (some b) →
        client.call b BEACON_IMPLEMENTATION_SELECTOR = .resolved (some d) →
        ¬(d = "" ∨ d = "0x") →
        slotToAddress client.getAddress (some d) = .addr (some bimpl) →
        codeEmpty (client.getCode bimpl) = true) →
      detectProxyImplementation client address
        = .returns (emptyResult address)) ∧
    (∀ b, slotToAddress client.getAddress
        (client.getStorageAt address BEACON_SLOT) = .addr (some b) →
      client.call b BEACON_IMPLEMENTATION_SELECTOR = .thrown →
      detectProxyImplementation client address = .thrown) := by
  have hfall : detectProxyImplementation client address
      = beaconPhase client address := by
    unfold detectProxyImplementation
    cases hs : slotToAddress client.getAddress
        (client.getStorageAt address IMPLEMENTATION_SLOT) with
    | thrown => exact absurd hs hns
    | addr iOpt =>
      cases iOpt with
      | none => rfl
      | some impl =>
        dsimp only
        have hce := himpl impl hs
        cases hcode : client.getCode impl with
        | none => rfl
        | some code =>
          dsimp only
          rw [hcode] at hce
          have : code = "" ∨ code = "0x" := by
            simpa [codeEmpty] using hce
          rw [if_pos this]
  refine ⟨hfall, ?_, ?_⟩
  · intro h1 h2 h3 h4
    rw [hfall]
    exact beaconPhase_empty client address h1 h2 h3 h4
  · intro b hb hc
    rw [hfall]
    unfold beaconPhase
    rw [hb]
    dsimp only
    rw [hc]

/-- Concrete oracle for the C6 counterexample and witness: the
implementation slot holds a non-zero address whose code is empty, the
beacon slot holds a non-zero beacon address, and calling the beacon
throws (viem raises on revert). -/
def c6throwClient : ProxyClient :=
  { getStorageAt := fun _ slot =>
      if slot = IMPLEMENTATION_SLOT then
        some "0x0000000000000000000000001111111111111111111111111111111111111111"
      else if slot = BEACON_SLOT then
        some "0x0000000000000000000000002222222222222222222222222222222222222222"
      else none,
    getCode := fun _ => some "0x",
    call := fun _ _ => .thrown,
    getAddress := fun s => some s }

/-- C6 counterexample: with the implementation slot populated by an
address with empty code and a beacon whose `implementation()` call
reverts, neither path yields an address with non-empty code — yet
`detectProxyImplementation` RAISES (the viem call throw propagates,
there is no try/catch) instead of returning
`isProxy = false` / zero address / `"0x"` as the claim prescribes. -/
theorem c6_proxy_counterexample :
    slotToAddress c6throwClient.getAddress
        (c6throwClient.getStorageAt "0xP" IMPLEMENTATION_SLOT)
      = .addr (some "0x1111111111111111111111111111111111111111") ∧
    (∀ a, codeEmpty (c6throwClient.getCode a) = true) ∧
    slotToAddress c6throwClient.getAddress
        (c6throwClient.getStorageAt "0xP" BEACON_SLOT)
      = .addr (some "0x2222222222222222222222222222222222222222") ∧
    c6throwClient.call "0x2222222222222222222222222222222222222222"
        BEACON_IMPLEMENTATION_SELECTOR = .thrown ∧
    detectProxyImplementation c6throwClient "0xP" = .thrown ∧
    detectProxyImplementation c6throwClient "0xP"
      ≠ .returns (emptyResult "0xP") := by
  refine ⟨by decide, fun _ => (by decide : codeEmpty (some "0x") = true),
    by decide, by decide, by decide, by decide⟩

/-- Witness for the amended C6 at the throwing oracle: the
implementation slot is populated, its address has empty code, resolution
falls through to the beacon phase, and the reverting beacon call makes
the function raise. -/
theorem c6_proxy_amended_witness :
    (slotToAddress c6throwClient.getAddress
        (c6throwClient.getStorageAt "0xP" IMPLEMENTATION_SLOT) ≠ .thrown ∧
      (∀ impl, slotToAddress c6throwClient.getAddress
          (c6throwClient.getStorageAt "0xP" IMPLEMENTATION_SLOT)
            = .addr (some impl) →
        codeEmpty (c6throwClient.getCode impl) = true)) ∧
    (detectProxyImplementation c6throwClient "0xP"
        = beaconPhase c6throwClient "0xP" ∧
      ((slotToAddress c6throwClient.getAddress
          (c6throwClient.getStorageAt "0xP" BEACON_SLOT) ≠ .thrown) →
        (∀ b, slotToAddress c6throwClient.getAddress
            (c6throwClient.getStorageAt "0xP" BEACON_SLOT) = .addr (some b) →
          c6throwClient.call b BEACON_IMPLEMENTATION_SELECTOR ≠ .thrown) →
        (∀ b d, slotToAddress c6throwClient.getAddress
            (c6throwClient.getStorageAt "0xP" BEACON_SLOT) = .addr (some b) →
          c6throwClient.call b BEACON_IMPLEMENTATION_SELECTOR
              = .resolved (some d) →
          ¬(d = "" ∨ d = "0x") →
          slotToAddress c6throwClient.getAddress (some d) ≠ .thrown) →
        (∀ bimpl b d, slotToAddress c6throwClient.getAddress
            (c6throwClient.getStorageAt "0xP" BEACON_SLOT) = .addr (some b) →
          c6throwClient.call b BEACON_IMPLEMENTATION_SELECTOR
              = .resolved (some d) →
          ¬(d = "" ∨ d = "0x") →
          slotToAddress c6throwClient.getAddress (some d)
              = .addr (some bimpl) →
          codeEmpty (c6throwClient.getCode bimpl) = true) →
        detectProxyImplementation c6throwClient "0xP"
          = .returns (emptyResult "0xP")) ∧
      (∀ b, slotToAddress c6throwClient.getAddress
          (c6throwClient.getStorageAt "0xP" BEACON_SLOT) = .addr (some b) →
        c6throwClient.call b BEACON_IMPLEMENTATION_SELECTOR = .thrown →
        detectProxyImplementation c6throwClient "0xP" = .thrown)) := by
  have hns : slotToAddress c6throwClient.getAddress
      (c6throwClient.getStorageAt "0xP" IMPLEMENTATION_SLOT) ≠ .thrown := by
    decide
  have himpl : ∀ impl, slotToAddress c6throwClient.getAddress
      (c6throwClient.getStorageAt "0xP" IMPLEMENTATION_SLOT)
        = .addr (some impl) →
      codeEmpty (c6throwClient.getCode impl) = true :=
    fun _ _ => (by decide : codeEmpty (some "0x") = true)
  exact ⟨⟨hns, himpl⟩, c6_proxy_amended c6throwClient "0xP" hns himpl⟩

/-!
## Callable classification (`src/helpers/contract-utils.ts`)
-/

/-- `isCallableSignature` of `src/helpers/contract-utils.ts` (lines 6–9):
`if (!signature) return true;` — true for an absent signature AND for the
empty string (both falsy) — `return signature.endsWith('()')`. -/
def isCallableSignature : Option String → Bool
  | none => true
  | some s => if s = "" then true else ['(', ')'].isSuffixOf s.data

/-- `extractFunctionName` of `src/helpers/contract-utils.ts`
(lines 16–21): `signature.split('(')[0]` — the prefix before the first
`'('` — when a parenthesis is present, else the whole signature. -/
def extractFunctionName (signature : String) : String :=
  if signature.data.contains '(' then
    String.mk (signature.data.takeWhile (fun c => c ≠ '('))
  else signature

/-- C8 counterexample: the empty-string signature is classified callable
although it is neither absent nor ends with `"()"` — JavaScript
falsiness of `""` breaks the claimed "absent or ends with `()`"
characterization. -/
theorem c8_callable_counterexample :
    isCallableSignature (some "") = true ∧
    (['(', ')'].isSuffixOf "".data) = false ∧
    some "" ≠ (none : Option String) := by
  refine ⟨by decide, by decide, by decide⟩

theorem head?_dropWhile_not (p : Char → Bool) (l : List Char) (c : Char)
    (h : (l.dropWhile p).head? = some c) : p c = false := by
  induction l with
  | nil => simp [List.dropWhile] at h
  | cons x xs ih =>
    by_cases hp : p x
    · rw [List.dropWhile_cons_of_pos hp] at h
      exact ih h
    · rw [List.dropWhile_cons_of_neg hp] at h
      simp only [List.head?_cons, Option.some.injEq] at h
      subst h
      simpa using hp

/-- C8 (amended): a selector is classified callable exactly when its
signature is absent, or empty (both JavaScript-falsy), or the signature
text ends with `"()"`; and the extracted function name is the maximal
prefix of the signature containing no `'('` — the text up to (not
including) the first `'('` when one is present, the full signature
otherwise. -/
theorem c8_callable_amended (sig : Option String) (s : String) :
    (isCallableSignature sig = true ↔
      (sig = none ∨ sig = some "" ∨
        ∃ t, sig = some t ∧ (['(', ')'].isSuffixOf t.data) = true)) ∧
    (∃ rest, s.data = (extractFunctionName s).data ++ rest ∧
      '(' ∉ (extractFunctionName s).data ∧
      (rest = [] ∨ rest.head? = some '(')) := by
  constructor
  · cases sig with
    | none => simp [isCallableSignature]
    | some t =>
      by_cases ht : t = ""
      · subst ht
        simp [isCallableSignature]
      · simp only [isCallableSignature, if_neg ht]
        constructor
        · intro h
          exact Or.inr (Or.inr ⟨t, rfl, h⟩)
        · rintro (h | h | ⟨u, hu, h⟩)
          · cases h
          · exact absurd (Option.some.inj h) ht
          · rwa [Option.some.inj hu]
  · unfold extractFunctionName
    split
    next hc =>
      refine ⟨s.data.dropWhile (fun c => c ≠ '('), ?_, ?_, ?_⟩
      · show s.data = s.data.takeWhile (fun c => c ≠ '(')
            ++ s.data.dropWhile (fun c => c ≠ '(')
        rw [List.takeWhile_append_dropWhile]
      · show '(' ∉ s.data.takeWhile (fun c => c ≠ '(')
        intro hmem
        have := List.mem_takeWhile_imp hmem
        simp at this
      · cases hh : (s.data.dropWhile (fun c => c ≠ '(')).head? with
        | none =>
          exfalso
          rw [List.head?_eq_none_iff, List.dropWhile_eq_nil_iff] at hh
          have := hh '(' (by simpa using hc)
          simp at this
        | some c =>
          have hpc := head?_dropWhile_not (fun c => c ≠ '(') s.data c hh
          simp at hpc
          subst hpc
          exact Or.inr rfl
    next hc =>
      refine ⟨[], by simp, ?_, Or.inl rfl⟩
      show '(' ∉ s.data
      intro hmem
      simp at hc
      exact hc hmem

/-!
## Signature resolution (`src/helpers/signature-resolver.ts` used by the
resolution loop of `processUserContract`)

`openchain` and `fourByte` are external HTTP lookups; their call log is
made explicit state: the oracle `svc` gives each lookup's answer (a
service echoes the input selector back for "not found"), and the log
records every lookup issued, in order.
-/

/-- One external lookup-service call. -/
inductive LookupCall where
  | openchainCall (selector : String)
  | fourByteCall (selector : String)
deriving DecidableEq, Repr

/-- The body of the resolution loop of `processUserContract`
(`src/groupcall/groupcall-viem.ts` bot part, lines 209–226): try
`openchain`; on the not-found sentinel (selector echoed back), fall back
to `fourByte`; keep a result only if it differs from the selector.
Returns the stored value and the service calls issued. -/
def resolveSelector (svc : LookupCall → String) (selector : String) :
    Option String × List LookupCall :=
  let ocRes := svc (.openchainCall selector)
  let step :=
    if ocRes ≠ selector then
      (some ocRes, [LookupCall.openchainCall selector])
    else
      let fbRes := svc (.fourByteCall selector)
      (if fbRes ≠ selector then some fbRes else none,
        [LookupCall.openchainCall selector, LookupCall.fourByteCall selector])
  (if step.1 ≠ some selector then step.1 else none, step.2)

/-- The `for (const selector of selectorsWith0x)` loop: every selector in
the list is resolved in order; the assignments into `resolvedSelectors`
and the lookup calls issued accumulate in processing order. -/
def resolveLoop (svc : LookupCall → String) :
    List String → List (String × Option String) × List LookupCall
  | [] => ([], [])
  | sel :: rest =>
    let r := resolveSelector svc sel
    let next := resolveLoop svc rest
    ((sel, r.1) :: next.1, r.2 ++ next.2)

/-- Oracle for the C9 counterexample: the primary service resolves every
selector to `"name()"`. -/
def c9svc : LookupCall → String := fun _ => "name()"

/-- C9 counterexample: resolving the selector `0xaaaaaaaa` twice issues
two external lookup calls — the call log is NOT the same as for
resolving it once, because the loop consults no cache. -/
theorem c9_no_cache_counterexample :
    (resolveLoop c9svc ["0xaaaaaaaa", "0xaaaaaaaa"]).2 =
      [LookupCall.openchainCall "0xaaaaaaaa",
        LookupCall.openchainCall "0xaaaaaaaa"] ∧
    (resolveLoop c9svc ["0xaaaaaaaa"]).2 =
      [LookupCall.openchainCall "0xaaaaaaaa"] ∧
    (resolveLoop c9svc ["0xaaaaaaaa", "0xaaaaaaaa"]).2 ≠
      (resolveLoop c9svc ["0xaaaaaaaa"]).2 := by
  refine ⟨by decide, by decide, by decide⟩

theorem resolveLoop_append (svc : LookupCall → String)
    (l1 l2 : List String) :
    (resolveLoop svc (l1 ++ l2)).2
      = (resolveLoop svc l1).2 ++ (resolveLoop svc l2).2 := by
  induction l1 with
  | nil => simp [resolveLoop]
  | cons sel rest ih =>
    simp only [List.cons_append, resolveLoop, List.append_eq, ih,
      List.append_assoc]

/-- C9 (amended): the resolution loop performs no memoization — every
occurrence of a selector in the scanned list appends its own fresh
lookup-service calls (at least the primary lookup) to the call log,
whether or not the same selector was resolved earlier, so resolving a
selector twice issues twice the external calls of resolving it once;
repetition is avoided only by upstream deduplication of the selector
list. -/
theorem c9_no_cache_amended (svc : LookupCall → String)
    (selectors : List String) (sel : String) :
    (resolveLoop svc (selectors ++ [sel])).2
        = (resolveLoop svc selectors).2 ++ (resolveSelector svc sel).2 ∧
    (resolveSelector svc sel).2 ≠ [] ∧
    (resolveLoop svc [sel, sel]).2
        = (resolveLoop svc [sel]).2 ++ (resolveLoop svc [sel]).2 := by
  refine ⟨?_, ?_, ?_⟩
  · rw [resolveLoop_append]
    simp [resolveLoop]
  · unfold resolveSelector
    dsimp only
    split <;> simp
  · show (resolveLoop svc ([sel] ++ [sel])).2 = _
    rw [resolveLoop_append]
